import Mathlib

/-!
Verification development for `loc.py`, a lines-of-code counter.

The program is shallowly embedded: Python strings are modelled as `List Char`,
the per-file line classifier (`LocCounter.count`) as a fold of a step function
over the lines, and the file-set collector (`MultipleFileLocCounter.add`) as a
fuel-indexed recursion over an abstract file system. All definitions follow
`src/loc.py` line by line.
-/

set_option autoImplicit false

/-- Characters of a string literal; used to write the Python string literals
of `loc.py` as `List Char` values. -/
def chars (s : String) : List Char := s.toList

/-- Python `s.startswith(p)` on character lists. -/
def strStarts : List Char → List Char → Bool
  | _, [] => true
  | [], _ :: _ => false
  | c :: s, q :: qs => c == q && strStarts s qs

/-- Python `s.endswith(p)` on character lists. -/
def strEnds (s p : List Char) : Bool := strStarts s.reverse p.reverse

/-- Python `s.strip()`: remove leading and trailing whitespace. -/
def strTrim (s : List Char) : List Char :=
  ((s.dropWhile Char.isWhitespace).reverse.dropWhile Char.isWhitespace).reverse

/-- The triple double-quote delimiter `"""`. -/
def tq3 : List Char := ['"', '"', '"']

/-- The triple single-quote delimiter `'''`. -/
def sq3 : List Char := ['\'', '\'', '\'']

/-- The counter and flag state of `LocCounter.count` (`loc.py` lines 58-59
together with the four counters initialised in `__init__`). -/
structure CountState where
  nbr_loc : Nat
  nbr_docstrings : Nat
  nbr_comments : Nat
  nbr_empty : Nat
  docstring : Bool
  docstring_char : List Char
deriving DecidableEq

/-- Initial state: all counters zero, `docstring = False`, `docstring_char = ''`. -/
def initState : CountState :=
  { nbr_loc := 0, nbr_docstrings := 0, nbr_comments := 0, nbr_empty := 0,
    docstring := false, docstring_char := [] }

/-- One iteration of the `for line in flines` loop of `LocCounter.count`
(`loc.py` lines 60-102), translated branch by branch. -/
def countLine (st : CountState) (line0 : List Char) : CountState :=
  let line := strTrim line0
  if line = [] then
    { st with nbr_empty := st.nbr_empty + 1 }
  else if strStarts line ['#'] then
    { st with nbr_comments := st.nbr_comments + 1 }
  else if st.docstring = false ∧ line.length > 3 ∧
      ((strStarts line tq3 ∧ strEnds line tq3) ∨ (strStarts line sq3 ∧ strEnds line sq3)) then
    { st with nbr_docstrings := st.nbr_docstrings + 1 }
  else if st.docstring = false ∧ strStarts line tq3 then
    { st with
      docstring_char := ['"']
      docstring := true
      nbr_docstrings := st.nbr_docstrings + 1 }
  else if st.docstring = false ∧ strStarts line sq3 then
    { st with
      docstring_char := ['\'']
      docstring := true
      nbr_docstrings := st.nbr_docstrings + 1 }
  else if st.docstring = true then
    if (st.docstring_char = ['"'] ∧ strEnds line tq3) ∨
        (st.docstring_char = ['\''] ∧ strEnds line sq3) then
      { st with docstring := false, nbr_docstrings := st.nbr_docstrings + 1 }
    else
      st
  else
    { st with nbr_loc := st.nbr_loc + 1 }

/-- `LocCounter.count`: fold the loop body over the lines of the file. -/
def count (flines : List (List Char)) : CountState :=
  flines.foldl countLine initState

/-- A `LocCounter` object after `count` has run: the file name together with
the four per-file counters (`loc.py` lines 28-44). -/
structure LocCounter where
  fname : List Char
  nbr_loc : Nat
  nbr_docstrings : Nat
  nbr_comments : Nat
  nbr_empty : Nat
deriving DecidableEq

/-- `LocCounter(fname)`: classify the lines of the file named `fname`.
The file-read step (`file_lines`) is modelled by the oracle `content`, which
returns the `splitlines()` result for a path. -/
def locCounterFor (content : List Char → List (List Char)) (fname : List Char) : LocCounter :=
  let st := count (content fname)
  { fname := fname
    nbr_loc := st.nbr_loc
    nbr_docstrings := st.nbr_docstrings
    nbr_comments := st.nbr_comments
    nbr_empty := st.nbr_empty }

/-- The four running totals of `MultipleFileLocCounter` (`loc.py` lines 149-152). -/
structure Totals where
  total_loc : Nat
  total_docstrings : Nat
  total_comments : Nat
  total_empty : Nat
deriving DecidableEq

/-- One iteration of the totals loop of `MultipleFileLocCounter.count`
(`loc.py` lines 168-172). -/
def addCounter (t : Totals) (c : LocCounter) : Totals :=
  { total_loc := t.total_loc + c.nbr_loc
    total_docstrings := t.total_docstrings + c.nbr_docstrings
    total_comments := t.total_comments + c.nbr_comments
    total_empty := t.total_empty + c.nbr_empty }

/-- `MultipleFileLocCounter.count` (`loc.py` lines 154-172): build one
`LocCounter` per found file, in order, then sum the totals. -/
def mfCount (content : List Char → List (List Char)) (found_files : List (List Char)) :
    List LocCounter × Totals :=
  let counted := found_files.map (locCounterFor content)
  (counted, counted.foldl addCounter ⟨0, 0, 0, 0⟩)

/-- The file-system facts `MultipleFileLocCounter.add` consults:
`os.path.exists`, `os.access(-, os.R_OK)`, `os.path.isdir` and `glob.glob`. -/
structure FS where
  pathExists : List Char → Bool
  readable : List Char → Bool
  isdir : List Char → Bool
  glob : List Char → List (List Char)

/-- The entry normalization of `loc.py` lines 194-195: strip a leading `./`
unless the entry has length exactly 2. -/
def normEntry (f : List Char) : List Char :=
  if f.length ≠ 2 ∧ strStarts f (chars "./") then f.drop 2 else f

/-- The message raised for a missing explicitly supplied path (`loc.py` line 198). -/
def msgNotExist (f : List Char) : List Char :=
  chars "Error: Dir/file '" ++ f ++ chars "' does not exist."

/-- The message raised for an unreadable explicitly supplied path (`loc.py` line 203). -/
def msgInaccessible (f : List Char) : List Char :=
  chars "Error: Dir/file '" ++ f ++ chars "' is inaccessible."

/-- The glob pattern built for a directory (`loc.py` lines 207-209): append a
`/` when missing, then `*`. -/
def dirPattern (nf : List Char) : List Char :=
  (if strEnds nf (chars "/") then nf else nf ++ chars "/") ++ chars "*"

/-- `MultipleFileLocCounter.add` (`loc.py` lines 174-214): walk the entries,
raising on a bad entry only when `first` is true, expanding directories when
`recurse` or `first` holds, and appending fresh `.py` files to `found`.
`fuel` bounds the recursion depth (the Python call stack); every recursive
call decreases it, and exhausted fuel returns the files found so far. -/
def addGo (fs : FS) : Nat → List (List Char) → List (List Char) → Bool → Bool →
    Except (List Char) (List (List Char))
  | 0, found, _, _, _ => .ok found
  | _ + 1, found, [], _, _ => .ok found
  | fuel + 1, found, f :: rest, recurse, first =>
    let nf := normEntry f
    if fs.pathExists nf = false then
      if first then .error (msgNotExist nf)
      else addGo fs fuel found rest recurse first
    else if fs.readable nf = false then
      if first then .error (msgInaccessible nf)
      else addGo fs fuel found rest recurse first
    else if fs.isdir nf then
      let items := fs.glob (dirPattern nf)
      if items ≠ [] ∧ (recurse ∨ first) then
        match addGo fs fuel found items recurse false with
        | .error e => .error e
        | .ok found2 => addGo fs fuel found2 rest recurse first
      else addGo fs fuel found rest recurse first
    else if strEnds nf (chars ".py") ∧ nf ∉ found then
      addGo fs fuel (found ++ [nf]) rest recurse first
    else addGo fs fuel found rest recurse first

/-- The top-level call `mfloc.add(filenames)`: `found_files` starts empty and
`first` is true. -/
def collect (fs : FS) (fuel : Nat) (filenames : List (List Char)) (recurse : Bool) :
    Except (List Char) (List (List Char)) :=
  addGo fs fuel [] filenames recurse true

/-- The effect of one non-recursing expansion pass (`first = false`,
`recurse = false`) over a list of discovered entries: directories are skipped,
fresh readable `.py` files are appended. Proven equal to `addGo` below. -/
def oneLevel (fs : FS) : List (List Char) → List (List Char) → List (List Char)
  | found, [] => found
  | found, f :: rest =>
    let nf := normEntry f
    if fs.pathExists nf = false then oneLevel fs found rest
    else if fs.readable nf = false then oneLevel fs found rest
    else if fs.isdir nf then oneLevel fs found rest
    else if strEnds nf (chars ".py") ∧ nf ∉ found then oneLevel fs (found ++ [nf]) rest
    else oneLevel fs found rest

/-- A file system on which nothing exists; used to exercise the not-found path. -/
def fsAbsent : FS :=
  { pathExists := fun _ => false
    readable := fun _ => true
    isdir := fun _ => false
    glob := fun _ => [] }

/-- A file system on which every path is a readable regular file. -/
def fsFlat : FS :=
  { pathExists := fun _ => true
    readable := fun _ => true
    isdir := fun _ => false
    glob := fun _ => [] }

/-- A small concrete tree: directory `d` holds `d/a.py` and the subdirectory
`d/sub`, which holds `d/sub/b.py`. -/
def fsTree : FS :=
  { pathExists := fun p =>
      (p == chars "d") || (p == chars "d/a.py") || (p == chars "d/sub") ||
        (p == chars "d/sub/b.py")
    readable := fun _ => true
    isdir := fun p => (p == chars "d") || (p == chars "d/sub")
    glob := fun pat =>
      if pat == chars "d/*" then [chars "d/a.py", chars "d/sub"]
      else if pat == chars "d/sub/*" then [chars "d/sub/b.py"]
      else [] }

/-! ## Helper lemmas -/

theorem strStarts_head (l : List Char) (q : Char) (qs : List Char)
    (h : strStarts l (q :: qs) = true) : ∃ t, l = q :: t ∧ strStarts t qs = true := by
  cases l with
  | nil => simp [strStarts] at h
  | cons c t =>
    simp only [strStarts, Bool.and_eq_true, beq_iff_eq] at h
    exact ⟨t, by rw [h.1], h.2⟩

theorem strStarts_hash_false (l : List Char) (q : Char) (qs : List Char)
    (hq : q ≠ '#') (h : strStarts l (q :: qs) = true) : strStarts l ['#'] = false := by
  obtain ⟨t, rfl, -⟩ := strStarts_head l q qs h
  simp [strStarts, hq]

theorem strStarts_ne_nil (l : List Char) (q : Char) (qs : List Char)
    (h : strStarts l (q :: qs) = true) : l ≠ [] := by
  obtain ⟨t, rfl, -⟩ := strStarts_head l q qs h
  exact List.cons_ne_nil _ _

theorem foldl_addCounter (l : List LocCounter) (t : Totals) :
    l.foldl addCounter t =
      { total_loc := t.total_loc + (l.map LocCounter.nbr_loc).sum
        total_docstrings := t.total_docstrings + (l.map LocCounter.nbr_docstrings).sum
        total_comments := t.total_comments + (l.map LocCounter.nbr_comments).sum
        total_empty := t.total_empty + (l.map LocCounter.nbr_empty).sum } := by
  induction l generalizing t with
  | nil => cases t; simp
  | cons c l ih => simp [List.foldl_cons, ih, addCounter, Nat.add_assoc]

/-! ## Claims about the line classifier -/

/-- Claim C1 (code bug evidence). The claim states that every line consumed
inside a multi-line docstring, including the closing line, increments the
docstring counter, and in particular that classifying `['\x22\x22\x22', 'body',
'\x22\x22\x22']` yields docstring = 3. The code disagrees: the increment on
`loc.py` line 98 sits inside the closing-delimiter `if`, so the interior line
`body` increments no counter at all and the run yields docstring = 2 with every
other counter zero. -/
theorem count_docstring_body_line_uncounted :
    count [tq3, chars "body", tq3] =
      { nbr_loc := 0, nbr_docstrings := 2, nbr_comments := 0, nbr_empty := 0,
        docstring := false, docstring_char := ['"'] } := by decide

/-- Claim C2 (code bug evidence). The claim states that the four counters
always sum to the number of input lines. On `['\x22\x22\x22', 'alpha', 'beta',
'\x22\x22\x22']` the code counts only the opening and closing delimiter lines
(docstring = 2) and leaves the two interior lines uncounted, so the counters
sum to 2 while the input has 4 lines. -/
theorem count_counters_sum_ne_length :
    (count [tq3, chars "alpha", chars "beta", tq3]).nbr_loc +
        (count [tq3, chars "alpha", chars "beta", tq3]).nbr_docstrings +
        (count [tq3, chars "alpha", chars "beta", tq3]).nbr_comments +
        (count [tq3, chars "alpha", chars "beta", tq3]).nbr_empty = 2 ∧
      [tq3, chars "alpha", chars "beta", tq3].length = 4 := by decide

/-- Claim C3 (counterexample). The claim states that the comment check is
skipped while inside a docstring, so a `#`-prefixed line consumed in docstring
state increments the docstring counter and never the comment counter. In the
code the comment check on `loc.py` line 69 runs unconditionally, so on
`['\x22\x22\x22', '# hi', '\x22\x22\x22']` the middle line increments the
comment counter (comments = 1) and the docstring counter ends at 2, not 3. -/
theorem count_hash_inside_docstring_is_comment :
    (count [tq3, chars "# hi", tq3]).nbr_comments = 1 ∧
      (count [tq3, chars "# hi", tq3]).nbr_docstrings = 2 := by decide

/-- Claim C3 (amended). The comment check is not skipped while inside a
docstring: a line whose trimmed form starts with `#`, consumed while the
classifier is in docstring state, increments the comment counter and nothing
else, leaving the docstring state untouched. -/
theorem countLine_comment_check_inside_docstring (st : CountState) (line : List Char)
    (_hd : st.docstring = true) (hh : strStarts (strTrim line) ['#'] = true) :
    countLine st line = { st with nbr_comments := st.nbr_comments + 1 } := by
  have hne : strTrim line ≠ [] := strStarts_ne_nil _ _ _ hh
  simp only [countLine]
  rw [if_neg hne, if_pos hh]

/-- Witness for the amended claim C3 at a concrete docstring state and the
concrete line `# x`. -/
theorem countLine_comment_check_inside_docstring_witness :
    countLine
        { nbr_loc := 0, nbr_docstrings := 1, nbr_comments := 0, nbr_empty := 0,
          docstring := true, docstring_char := ['"'] } (chars "# x") =
      { nbr_loc := 0, nbr_docstrings := 1, nbr_comments := 1, nbr_empty := 0,
        docstring := true, docstring_char := ['"'] } :=
  countLine_comment_check_inside_docstring _ _ rfl (by decide)

/-- Claim C4. When the classifier is not inside a docstring: a bare trimmed
`\x22\x22\x22` (or `'''`) line — the only lines of trimmed length at most 3
starting with a delimiter — opens a multi-line docstring with the matching
quote kind rather than counting as a single-line docstring, while a trimmed
line of length greater than 3 that starts and ends with the same triple-quote
delimiter counts as a single-line docstring and leaves the state unchanged,
this check firing before the multi-line open check. -/
theorem countLine_single_line_docstring_rules (st : CountState) (line : List Char)
    (hd : st.docstring = false) :
    (strTrim line = tq3 →
      countLine st line =
        { st with
          docstring_char := ['"']
          docstring := true
          nbr_docstrings := st.nbr_docstrings + 1 }) ∧
    (strTrim line = sq3 →
      countLine st line =
        { st with
          docstring_char := ['\'']
          docstring := true
          nbr_docstrings := st.nbr_docstrings + 1 }) ∧
    ((strTrim line).length > 3 →
      ((strStarts (strTrim line) tq3 = true ∧ strEnds (strTrim line) tq3 = true) ∨
        (strStarts (strTrim line) sq3 = true ∧ strEnds (strTrim line) sq3 = true)) →
      countLine st line = { st with nbr_docstrings := st.nbr_docstrings + 1 }) := by
  refine ⟨fun h => ?_, fun h => ?_, fun hlen hq => ?_⟩
  · simp only [countLine]
    rw [h, if_neg (by decide), if_neg (by decide),
      if_neg (fun hc => absurd hc.2.1 (by decide)), if_pos ⟨hd, by decide⟩]
  · simp only [countLine]
    rw [h, if_neg (by decide), if_neg (by decide),
      if_neg (fun hc => absurd hc.2.1 (by decide)),
      if_neg (fun hc => absurd hc.2 (by decide)), if_pos ⟨hd, by decide⟩]
  · have hne : strTrim line ≠ [] := by
      intro e; rw [e] at hlen; exact absurd hlen (by decide)
    have hnh : strStarts (strTrim line) ['#'] = false := by
      rcases hq with ⟨h1, -⟩ | ⟨h1, -⟩
      · exact strStarts_hash_false _ '"' _ (by decide) h1
      · exact strStarts_hash_false _ '\'' _ (by decide) h1
    simp only [countLine]
    rw [if_neg hne, if_neg (by simp [hnh]), if_pos ⟨hd, hlen, hq⟩]

/-- Witness for claim C4: from the initial state, the bare line
`\x22\x22\x22` opens a docstring, and `\x22\x22\x22a\x22\x22\x22` counts as a
single-line docstring without changing the state. -/
theorem countLine_single_line_docstring_rules_witness :
    countLine initState (chars "\"\"\"") =
        { nbr_loc := 0, nbr_docstrings := 1, nbr_comments := 0, nbr_empty := 0,
          docstring := true, docstring_char := ['"'] } ∧
      countLine initState (chars "\"\"\"a\"\"\"") =
        { nbr_loc := 0, nbr_docstrings := 1, nbr_comments := 0, nbr_empty := 0,
          docstring := false, docstring_char := [] } :=
  ⟨(countLine_single_line_docstring_rules initState (chars "\"\"\"") rfl).1 (by decide),
    (countLine_single_line_docstring_rules initState (chars "\"\"\"a\"\"\"") rfl).2.2
      (by decide) (Or.inl ⟨by decide, by decide⟩)⟩

/-- Claim C5. The totals computed by `MultipleFileLocCounter.count` are the
element-wise sums of the per-file counters, and the per-file records appear in
the same order as the collected file list. -/
theorem mfCount_totals_and_order (content : List Char → List (List Char))
    (files : List (List Char)) :
    ((mfCount content files).1.map LocCounter.fname = files) ∧
    ((mfCount content files).2.total_loc =
      ((mfCount content files).1.map LocCounter.nbr_loc).sum) ∧
    ((mfCount content files).2.total_docstrings =
      ((mfCount content files).1.map LocCounter.nbr_docstrings).sum) ∧
    ((mfCount content files).2.total_comments =
      ((mfCount content files).1.map LocCounter.nbr_comments).sum) ∧
    ((mfCount content files).2.total_empty =
      ((mfCount content files).1.map LocCounter.nbr_empty).sum) := by
  refine ⟨?_, ?_, ?_, ?_, ?_⟩
  · show (files.map (locCounterFor content)).map LocCounter.fname = files
    rw [List.map_map]
    have h1 : (LocCounter.fname ∘ locCounterFor content) = id := funext fun f => rfl
    rw [h1, List.map_id]
  · simp [mfCount, foldl_addCounter]
  · simp [mfCount, foldl_addCounter]
  · simp [mfCount, foldl_addCounter]
  · simp [mfCount, foldl_addCounter]

/-! ## Claims about the file-set collector -/

theorem addGo_not_first_ok (fs : FS) :
    ∀ (fuel : Nat) (found inputs : List (List Char)) (recurse : Bool),
      ∃ r, addGo fs fuel found inputs recurse false = .ok r := by
  intro fuel
  induction fuel with
  | zero => exact fun found inputs recurse => ⟨found, rfl⟩
  | succ n ih =>
    intro found inputs recurse
    cases inputs with
    | nil => exact ⟨found, rfl⟩
    | cons f rest =>
      simp only [addGo]
      split
      · simp only [Bool.false_eq_true, if_false]
        exact ih found rest recurse
      · split
        · simp only [Bool.false_eq_true, if_false]
          exact ih found rest recurse
        · split
          · split
            · obtain ⟨r1, h1⟩ := ih found (fs.glob (dirPattern (normEntry f))) recurse
              rw [h1]
              exact ih r1 rest recurse
            · exact ih found rest recurse
          · split
            · exact ih (found ++ [normEntry f]) rest recurse
            · exact ih found rest recurse

theorem addGo_error_first (fs : FS) :
    ∀ (fuel : Nat) (found inputs : List (List Char)) (recurse : Bool) (e : List Char),
      addGo fs fuel found inputs recurse true = .error e →
      ∃ f ∈ inputs,
        (fs.pathExists (normEntry f) = false ∧ e = msgNotExist (normEntry f)) ∨
        (fs.pathExists (normEntry f) = true ∧ fs.readable (normEntry f) = false ∧
          e = msgInaccessible (normEntry f)) := by
  intro fuel
  induction fuel with
  | zero =>
    intro found inputs recurse e h
    simp only [addGo] at h
    exact absurd h (by simp)
  | succ n ih =>
    intro found inputs recurse e h
    cases inputs with
    | nil =>
      simp only [addGo] at h
      exact absurd h (by simp)
    | cons f rest =>
      simp only [addGo] at h
      split at h
      · next hex =>
        rw [if_pos trivial] at h
        injection h with h2
        exact ⟨f, List.mem_cons_self f rest, Or.inl ⟨hex, h2.symm⟩⟩
      · next hex =>
        have hex1 : fs.pathExists (normEntry f) = true := by
          revert hex; cases fs.pathExists (normEntry f) <;> simp
        split at h
        · next hrd =>
          rw [if_pos trivial] at h
          injection h with h2
          exact ⟨f, List.mem_cons_self f rest, Or.inr ⟨hex1, hrd, h2.symm⟩⟩
        · split at h
          · split at h
            · split at h
              · next e2 heq =>
                obtain ⟨r1, h1⟩ :=
                  addGo_not_first_ok fs n found (fs.glob (dirPattern (normEntry f))) recurse
                rw [h1] at heq
                exact absurd heq (by simp)
              · next found2 heq =>
                obtain ⟨g, hg, hcase⟩ := ih found2 rest recurse e h
                exact ⟨g, List.mem_cons_of_mem f hg, hcase⟩
            · obtain ⟨g, hg, hcase⟩ := ih found rest recurse e h
              exact ⟨g, List.mem_cons_of_mem f hg, hcase⟩
          · split at h
            · obtain ⟨g, hg, hcase⟩ := ih (found ++ [normEntry f]) rest recurse e h
              exact ⟨g, List.mem_cons_of_mem f hg, hcase⟩
            · obtain ⟨g, hg, hcase⟩ := ih found rest recurse e h
              exact ⟨g, List.mem_cons_of_mem f hg, hcase⟩

theorem addGo_error_of_bad (fs : FS) :
    ∀ (inputs : List (List Char)) (fuel : Nat) (found : List (List Char)) (recurse : Bool)
      (f : List Char), f ∈ inputs → inputs.length ≤ fuel →
      (fs.pathExists (normEntry f) = false ∨ fs.readable (normEntry f) = false) →
      ∃ e, addGo fs fuel found inputs recurse true = .error e := by
  intro inputs
  induction inputs with
  | nil => intro fuel found recurse f hf _ _; exact absurd hf (List.not_mem_nil f)
  | cons g rest ih =>
    intro fuel found recurse f hf hlen hbad
    cases fuel with
    | zero => exact absurd hlen (by simp)
    | succ n =>
      have hlen' : rest.length ≤ n := by simpa using hlen
      simp only [addGo]
      by_cases hex : fs.pathExists (normEntry g) = false
      · rw [if_pos hex, if_pos trivial]
        exact ⟨msgNotExist (normEntry g), rfl⟩
      · rw [if_neg hex]
        by_cases hrd : fs.readable (normEntry g) = false
        · rw [if_pos hrd, if_pos trivial]
          exact ⟨msgInaccessible (normEntry g), rfl⟩
        · rw [if_neg hrd]
          have hfr : f ∈ rest := by
            rcases List.mem_cons.mp hf with heq | hfr
            · subst heq
              rcases hbad with hb | hb
              · exact absurd hb hex
              · exact absurd hb hrd
            · exact hfr
          by_cases hdir : fs.isdir (normEntry g) = true
          · rw [if_pos hdir]
            by_cases hgl : fs.glob (dirPattern (normEntry g)) = []
            · rw [if_neg (fun hc => hc.1 hgl)]
              exact ih n found recurse f hfr hlen' hbad
            · rw [if_pos ⟨hgl, Or.inr trivial⟩]
              obtain ⟨r1, h1⟩ :=
                addGo_not_first_ok fs n found (fs.glob (dirPattern (normEntry g))) recurse
              rw [h1]
              exact ih n r1 recurse f hfr hlen' hbad
          · rw [if_neg hdir]
            by_cases hpy : strEnds (normEntry g) (chars ".py") = true ∧ normEntry g ∉ found
            · rw [if_pos hpy]
              exact ih n (found ++ [normEntry g]) recurse f hfr hlen' hbad
            · rw [if_neg hpy]
              exact ih n found recurse f hfr hlen' hbad

theorem addGo_no_recurse_expansion (fs : FS) :
    ∀ (items : List (List Char)) (fuel : Nat) (found : List (List Char)),
      items.length ≤ fuel →
      addGo fs fuel found items false false = .ok (oneLevel fs found items) := by
  intro items
  induction items with
  | nil =>
    intro fuel found _
    cases fuel with
    | zero => rfl
    | succ n => rfl
  | cons g rest ih =>
    intro fuel found hlen
    cases fuel with
    | zero => exact absurd hlen (by simp)
    | succ n =>
      have hlen' : rest.length ≤ n := by simpa using hlen
      simp only [addGo, oneLevel]
      by_cases hex : fs.pathExists (normEntry g) = false
      · rw [if_pos hex, if_pos hex]
        simp only [Bool.false_eq_true, if_false]
        exact ih n found hlen'
      · rw [if_neg hex, if_neg hex]
        by_cases hrd : fs.readable (normEntry g) = false
        · rw [if_pos hrd, if_pos hrd]
          simp only [Bool.false_eq_true, if_false]
          exact ih n found hlen'
        · rw [if_neg hrd, if_neg hrd]
          by_cases hdir : fs.isdir (normEntry g) = true
          · rw [if_pos hdir, if_pos hdir]
            rw [if_neg (fun hc => by
              rcases hc.2 with hb | hb <;> exact absurd hb (by decide))]
            exact ih n found hlen'
          · rw [if_neg hdir, if_neg hdir]
            by_cases hpy : strEnds (normEntry g) (chars ".py") = true ∧ normEntry g ∉ found
            · rw [if_pos hpy, if_pos hpy]
              exact ih n (found ++ [normEntry g]) hlen'
            · rw [if_neg hpy, if_neg hpy]
              exact ih n found hlen'

theorem addGo_inv (fs : FS) :
    ∀ (fuel : Nat) (found inputs : List (List Char)) (recurse first : Bool)
      (res : List (List Char)),
      addGo fs fuel found inputs recurse first = .ok res →
      found.Nodup → (∀ p ∈ found, strEnds p (chars ".py") = true) →
      res.Nodup ∧ ∀ p ∈ res, strEnds p (chars ".py") = true := by
  intro fuel
  induction fuel with
  | zero =>
    intro found inputs recurse first res h h1 h2
    simp only [addGo] at h
    injection h with h3
    subst h3
    exact ⟨h1, h2⟩
  | succ n ih =>
    intro found inputs recurse first res h h1 h2
    cases inputs with
    | nil =>
      simp only [addGo] at h
      injection h with h3
      subst h3
      exact ⟨h1, h2⟩
    | cons f rest =>
      simp only [addGo] at h
      split at h
      · split at h
        · exact Except.noConfusion h
        · exact ih found rest recurse first res h h1 h2
      · split at h
        · split at h
          · exact Except.noConfusion h
          · exact ih found rest recurse first res h h1 h2
        · split at h
          · split at h
            · split at h
              · exact absurd h (by simp)
              · next found2 heq =>
                have hmid := ih found (fs.glob (dirPattern (normEntry f))) recurse false
                  found2 heq h1 h2
                exact ih found2 rest recurse first res h hmid.1 hmid.2
            · exact ih found rest recurse first res h h1 h2
          · split at h
            · next hpy =>
              refine ih (found ++ [normEntry f]) rest recurse first res h ?_ ?_
              · rw [List.nodup_append]
                refine ⟨h1, List.nodup_singleton _, fun a ha hb => ?_⟩
                rw [List.mem_singleton] at hb
                subst hb
                exact hpy.2 ha
              · intro p hp
                rcases List.mem_append.mp hp with hp | hp
                · exact h2 p hp
                · rw [List.mem_singleton] at hp
                  subst hp
                  exact hpy.1
            · exact ih found rest recurse first res h h1 h2

/-- Claim C6. Collection at the top level (`first = true`) fails exactly on a
bad explicitly supplied entry: a run that errors does so for some supplied
entry that is missing (with the `does not exist` message) or unreadable (with
the `is inaccessible` message); conversely any bad supplied entry makes the
run error (given enough fuel for the walk); and a recursive expansion call
(`first = false`) never produces an error, so discovered paths are silently
skipped. -/
theorem collect_error_iff_bad_toplevel (fs : FS) (fuel : Nat) (inputs : List (List Char))
    (recurse : Bool) :
    (∀ (found inner : List (List Char)) (e : List Char),
        addGo fs fuel found inner recurse false ≠ .error e) ∧
    (∀ e, collect fs fuel inputs recurse = .error e →
        ∃ f ∈ inputs,
          (fs.pathExists (normEntry f) = false ∧ e = msgNotExist (normEntry f)) ∨
          (fs.pathExists (normEntry f) = true ∧ fs.readable (normEntry f) = false ∧
            e = msgInaccessible (normEntry f))) ∧
    (inputs.length ≤ fuel →
      ∀ f ∈ inputs,
        (fs.pathExists (normEntry f) = false ∨ fs.readable (normEntry f) = false) →
        ∃ e, collect fs fuel inputs recurse = .error e) := by
  refine ⟨?_, ?_, ?_⟩
  · intro found inner e h
    obtain ⟨r, hr⟩ := addGo_not_first_ok fs fuel found inner recurse
    rw [hr] at h
    exact absurd h (by simp)
  · intro e h
    exact addGo_error_first fs fuel [] inputs recurse e h
  · intro hlen f hf hbad
    exact addGo_error_of_bad fs inputs fuel [] recurse f hf hlen hbad

/-- Witness for claim C6: on a file system where nothing exists, collecting
the single explicitly supplied entry `nope.py` errors. -/
theorem collect_error_iff_bad_toplevel_witness :
    ∃ e, collect fsAbsent 1 [chars "nope.py"] false = .error e :=
  (collect_error_iff_bad_toplevel fsAbsent 1 [chars "nope.py"] false).2.2 (by decide)
    (chars "nope.py") (by simp) (Or.inl (by decide))

/-- Claim C7. An explicitly supplied directory is expanded one level even when
`recurse` is false — its glob children are processed with `first = false`, and
with `recurse` false that pass (`oneLevel`) adds exactly the immediate
readable `.py` children, skipping subdirectories. A directory discovered
during expansion (`first = false`) is skipped entirely when `recurse` is
false, and is descended into when `recurse` is true. -/
theorem toplevel_dir_one_level_expansion (fs : FS) (fuel : Nat)
    (found rest : List (List Char)) (d : List Char)
    (hex : fs.pathExists (normEntry d) = true) (hrd : fs.readable (normEntry d) = true)
    (hdir : fs.isdir (normEntry d) = true) :
    (fs.glob (dirPattern (normEntry d)) ≠ [] →
      (fs.glob (dirPattern (normEntry d))).length ≤ fuel →
      addGo fs (fuel + 1) found (d :: rest) false true =
        addGo fs fuel (oneLevel fs found (fs.glob (dirPattern (normEntry d)))) rest
          false true) ∧
    (addGo fs (fuel + 1) found (d :: rest) false false =
      addGo fs fuel found rest false false) ∧
    (fs.glob (dirPattern (normEntry d)) ≠ [] →
      ∃ found2,
        addGo fs fuel found (fs.glob (dirPattern (normEntry d))) true false = .ok found2 ∧
        addGo fs (fuel + 1) found (d :: rest) true false =
          addGo fs fuel found2 rest true false) := by
  have hne : ¬fs.pathExists (normEntry d) = false := by simp [hex]
  have hnr : ¬fs.readable (normEntry d) = false := by simp [hrd]
  refine ⟨fun hitems hlen => ?_, ?_, fun hitems => ?_⟩
  · simp only [addGo]
    rw [if_neg hne, if_neg hnr, if_pos hdir, if_pos ⟨hitems, by simp⟩,
      addGo_no_recurse_expansion fs (fs.glob (dirPattern (normEntry d))) fuel found hlen]
  · simp only [addGo]
    rw [if_neg hne, if_neg hnr, if_pos hdir,
      if_neg (fun hc => by simpa using hc.2)]
  · simp only [addGo]
    rw [if_neg hne, if_neg hnr, if_pos hdir, if_pos ⟨hitems, by simp⟩]
    obtain ⟨r1, h1⟩ :=
      addGo_not_first_ok fs fuel found (fs.glob (dirPattern (normEntry d))) true
    exact ⟨r1, h1, by rw [h1]⟩

/-- Witness for claim C7 on the concrete tree `fsTree`: the supplied directory
`d` is expanded one level without `recurse`. -/
theorem toplevel_dir_one_level_expansion_witness :
    addGo fsTree 3 [] [chars "d"] false true =
      addGo fsTree 2 (oneLevel fsTree [] (fsTree.glob (dirPattern (normEntry (chars "d")))))
        [] false true :=
  (toplevel_dir_one_level_expansion fsTree 2 [] [] (chars "d") (by decide) (by decide)
    (by decide)).1 (by decide) (by decide)

/-- Claim C8. A successful collection yields a list with no duplicate paths in
which every path ends in `.py`. -/
theorem collect_nodup_and_py_only (fs : FS) (fuel : Nat) (inputs : List (List Char))
    (recurse : Bool) (res : List (List Char))
    (h : collect fs fuel inputs recurse = .ok res) :
    res.Nodup ∧ ∀ p ∈ res, strEnds p (chars ".py") = true :=
  addGo_inv fs fuel [] inputs recurse true res h List.nodup_nil
    (fun p hp => absurd hp (List.not_mem_nil p))

/-- Witness for claim C8: the same file reached through the two supplied
entries `a.py` and `./a.py` is collected once. -/
theorem collect_nodup_and_py_only_witness :
    ([chars "a.py"] : List (List Char)).Nodup ∧
      ∀ p ∈ ([chars "a.py"] : List (List Char)), strEnds p (chars ".py") = true :=
  collect_nodup_and_py_only fsFlat 2 [chars "a.py", chars "./a.py"] false
    [chars "a.py"] rfl

/-- Claim C9. For an entry starting with `./`, the leading `./` is stripped
exactly when the entry's length is not 2; the two-character entry `./` itself
is left unchanged (and in particular is not stripped to the empty path). -/
theorem normEntry_strip_iff_len_ne_two (f : List Char) (h : strStarts f (chars "./") = true) :
    (f.length ≠ 2 → normEntry f = f.drop 2) ∧
    (f.length = 2 → f = chars "./" ∧ normEntry f = f ∧ normEntry f ≠ f.drop 2) := by
  constructor
  · intro hl
    unfold normEntry
    rw [if_pos ⟨hl, h⟩]
  · intro hl
    have hch : chars "./" = ['.', '/'] := rfl
    rw [hch] at h
    obtain ⟨t, rfl, h2⟩ := strStarts_head f '.' ['/'] h
    obtain ⟨t2, rfl, h3⟩ := strStarts_head t '/' [] h2
    have ht2 : t2 = [] := by
      have hl0 : t2.length = 0 := by
        simp only [List.length_cons] at hl
        omega
      exact List.eq_nil_of_length_eq_zero hl0
    subst ht2
    refine ⟨by decide, ?_, ?_⟩
    · unfold normEntry
      rw [if_neg (fun hc => hc.1 hl)]
    · unfold normEntry
      rw [if_neg (fun hc => hc.1 hl)]
      decide

/-- Witness for claim C9 at the concrete entry `./a.py`, whose leading `./`
is stripped. -/
theorem normEntry_strip_iff_len_ne_two_witness :
    normEntry (chars "./a.py") = (chars "./a.py").drop 2 :=
  (normEntry_strip_iff_len_ne_two (chars "./a.py") (by decide)).1 (by decide)

/-- Claim C10. An explicitly supplied top-level path that exists, is readable,
and is a regular file not ending in `.py` is silently excluded: the walk
continues on the remaining entries with no error raised and nothing added. -/
theorem toplevel_non_py_file_skipped (fs : FS) (fuel : Nat)
    (found rest : List (List Char)) (f : List Char) (recurse : Bool)
    (hex : fs.pathExists (normEntry f) = true) (hrd : fs.readable (normEntry f) = true)
    (hfile : fs.isdir (normEntry f) = false)
    (hnpy : strEnds (normEntry f) (chars ".py") = false) :
    addGo fs (fuel + 1) found (f :: rest) recurse true =
      addGo fs fuel found rest recurse true := by
  simp only [addGo]
  rw [if_neg (by simp [hex]), if_neg (by simp [hrd]), if_neg (by simp [hfile]),
    if_neg (fun hc => by rw [hnpy] at hc; exact absurd hc.1 (by simp))]

/-- Witness for claim C10: the supplied regular file `README.md` is skipped on
a file system where every path is a readable file. -/
theorem toplevel_non_py_file_skipped_witness :
    addGo fsFlat 1 [] [chars "README.md"] false true = addGo fsFlat 0 [] [] false true :=
  toplevel_non_py_file_skipped fsFlat 0 [] [] (chars "README.md") false (by decide)
    (by decide) (by decide) (by decide)

